import Mathlib

/-!
Verification of the macro-regime-classifier core (regime labeler, decision-tree
and random-forest trainer/predictor, weekly long/short backtest engine) against
its natural-language specification.

The embedding follows `src/app/regime/page.tsx` (the module `src/unnamed/part_000`
contains the same algorithmic code up to formatting). Numeric values are modelled
as exact rationals (`ℚ`), missing values (`null`) as `Option.none`. Date keys,
which the source normalizes to ISO `YYYY-MM-DD` strings and compares
lexicographically, are modelled as natural numbers in `YYYYMMDD` reading (an
order isomorphism). JavaScript `Array.prototype.sort` is modelled by the stable
`List.insertionSort`.
-/

/-! ## Regime labeler (`labelRegimes`) -/

/-- The feature fields read by `labelRegimes`; every field is nullable in the
source rows, `null` is modelled as `none`. -/
structure FeatureRow where
  spx_ret_3w_z : Option ℚ
  vix_z : Option ℚ
  pmi_z : Option ℚ
  breakeven10_z : Option ℚ
  vvix_z : Option ℚ
  rv_3w_z : Option ℚ
  ip_yoy_z : Option ℚ
  unemp_z : Option ℚ
  cpi_yoy_z : Option ℚ

/-- Source: `const R_z = row.spx_ret_3w_z ?? 0`. -/
def FeatureRow.Rz (row : FeatureRow) : ℚ := row.spx_ret_3w_z.getD 0

/-- Source: `const V_z = row.vix_z ?? 0`. -/
def FeatureRow.Vz (row : FeatureRow) : ℚ := row.vix_z.getD 0

/-- Source: `const G_z = row.pmi_z ?? 0`. -/
def FeatureRow.Gz (row : FeatureRow) : ℚ := row.pmi_z.getD 0

/-- Source: `const I_z = row.breakeven10_z ?? 0`. -/
def FeatureRow.Iz (row : FeatureRow) : ℚ := row.breakeven10_z.getD 0

/-- Source: `const vol_stress = (row.vvix_z ?? 0) + (row.rv_3w_z ?? 0)`. -/
def FeatureRow.volStress (row : FeatureRow) : ℚ :=
  row.vvix_z.getD 0 + row.rv_3w_z.getD 0

/-- Source: `const growth_momentum = (row.ip_yoy_z ?? 0) - (row.unemp_z ?? 0)`. -/
def FeatureRow.growthMomentum (row : FeatureRow) : ℚ :=
  row.ip_yoy_z.getD 0 - row.unemp_z.getD 0

/-- The per-row body of `labelRegimes`: the nested if/else chain assigning a
regime id, translated clause by clause from the source. -/
def labelRegime (row : FeatureRow) : ℕ :=
  if row.Gz ≤ 0 ∧ row.Iz ≥ 0.75 ∧ row.Vz ≥ 0 then 2
  else if row.Rz ≥ 0.5 ∧ row.Vz ≤ -0.5 ∧ row.volStress < -0.3 then 3
  else if row.Rz ≤ -0.5 ∧ row.Gz ≤ 0 ∧ row.Vz ≥ 0 then 1
  else if row.Rz ≥ 0.5 ∧ row.Vz ≤ 0 ∧ row.Gz ≥ 0 ∧ row.Iz ≥ -0.5 ∧ row.Iz ≤ 0.75 then 0
  else
    if row.Rz > 0 ∧ row.Vz < 0 ∧ row.growthMomentum > 0 then 0
    else if row.Rz < 0 ∧ row.Vz > 0 then 1
    else if row.Iz > 0.5 ∨ row.cpi_yoy_z.getD 0 > 0.75 then 2
    else 3

/-- Source `labelRegimes`: maps the labeler over the data, pairing each row
with its regime id. -/
def labelRegimes (data : List FeatureRow) : List (FeatureRow × ℕ) :=
  data.map (fun row => (row, labelRegime row))

/-- Modelled from the spec's words (section 4.1 of the specification): the
fallback cascade evaluated when none of the four primary rules matches. -/
def fallbackCascade (row : FeatureRow) : ℕ :=
  if row.Rz > 0 ∧ row.Vz < 0 ∧ row.growthMomentum > 0 then 0
  else if row.Rz < 0 ∧ row.Vz > 0 then 1
  else if row.Iz > 0.5 ∨ row.cpi_yoy_z.getD 0 > 0.75 then 2
  else 3

/-- Modelled from the spec's words: the ordered rule list of section 4.1,
Stagflation then Overheating then Slowdown then Goldilocks, each entry a
(condition, regime id) pair. -/
def regimeRuleList (row : FeatureRow) : List (Bool × ℕ) :=
  [ (decide (row.Gz ≤ 0 ∧ row.Iz ≥ 0.75 ∧ row.Vz ≥ 0), 2),
    (decide (row.Rz ≥ 0.5 ∧ row.Vz ≤ -0.5 ∧ row.volStress < -0.3), 3),
    (decide (row.Rz ≤ -0.5 ∧ row.Gz ≤ 0 ∧ row.Vz ≥ 0), 1),
    (decide (row.Rz ≥ 0.5 ∧ row.Vz ≤ 0 ∧ row.Gz ≥ 0 ∧ row.Iz ≥ -0.5 ∧ row.Iz ≤ 0.75), 0) ]

/-- Modelled from the spec's words: first-matching-rule-wins evaluation of the
ordered rule list, falling through to the fallback cascade. -/
def labelRegimeSpec (row : FeatureRow) : ℕ :=
  match (regimeRuleList row).find? (fun p => p.1) with
  | some p => p.2
  | none => fallbackCascade row

/-! ## Decision-tree trainer and predictor

Training rows are objects indexed by feature name with nullable numeric
values, plus the integer label column `regime` (the `target` argument is the
fixed field name `"regime"` at every call site, so the label column is
modelled as a named field). -/

/-- A training row: feature name to nullable value, plus the label. -/
structure TRow where
  feat : String → Option ℚ
  regime : ℕ

/-- A decision-tree node: the source builds either `{leaf: true, prediction}`
or `{leaf: false, feature, threshold, left, right}` (internal nodes carry no
`prediction` field). -/
inductive DTree where
  | leaf (prediction : ℕ) : DTree
  | node (feature : String) (threshold : ℚ) (left right : DTree) : DTree
deriving DecidableEq

/-- Source `const counts = [0,0,0,0]; data.forEach(d => counts[d[target]]++)`:
the class-count vector over the 4 fixed classes. -/
def classCounts (data : List TRow) : List ℕ :=
  (List.range 4).map (fun k => (data.filter (fun d => d.regime = k)).length)

/-- Source `counts.indexOf(Math.max(...counts))`: first index of the maximal
class count (majority class, ties to the lowest class id). -/
def majorityPred (data : List TRow) : ℕ :=
  (classCounts data).indexOf ((classCounts data).foldr max 0)

/-- Source `calcGini`: Gini impurity `1 - Σ (count/n)²`, with the per-term
`data.length > 0` guard making the empty row set score 1. -/
def calcGini (data : List TRow) : ℚ :=
  1 - ((classCounts data).map
    (fun c => if data.length = 0 then 0 else ((c : ℚ) / data.length) ^ 2)).sum

/-- Source filter `d[feature] != null && d[feature] <= threshold`. -/
def featLE (d : TRow) (f : String) (t : ℚ) : Bool :=
  match d.feat f with
  | some v => decide (v ≤ t)
  | none => false

/-- Source filter `d[feature] != null && d[feature] > threshold`. -/
def featGT (d : TRow) (f : String) (t : ℚ) : Bool :=
  match d.feat f with
  | some v => decide (t < v)
  | none => false

/-- The left partition of a candidate split. -/
def leftPart (data : List TRow) (f : String) (t : ℚ) : List TRow :=
  data.filter (fun d => featLE d f t)

/-- The right partition of a candidate split. -/
def rightPart (data : List TRow) (f : String) (t : ℚ) : List TRow :=
  data.filter (fun d => featGT d f t)

/-- Source: the non-null values of a feature, sorted ascending (JavaScript
`sort((a, b) => a - b)` modelled by a stable sort; on rational values the
ascending result is unique). -/
def sortedVals (data : List TRow) (f : String) : List ℚ :=
  List.insertionSort (fun a b => a ≤ b) (data.filterMap (fun d => d.feat f))

/-- Source: the three percentile cut points `values[Math.floor(values.length *
pct)]` for `pct` in `[0.25, 0.5, 0.75]` (for a natural length `n`, the float
products are exact and their floors are `n / 4`, `n / 2` and `3 * n / 4` in
natural-number division); a feature with no non-null values yields no
candidates (the `values.length === 0` early return). -/
def thresholdsFor (data : List TRow) (f : String) : List ℚ :=
  let values := sortedVals data f
  if values.length = 0 then []
  else [values.getD (values.length / 4) 0,
        values.getD (values.length / 2) 0,
        values.getD (3 * values.length / 4) 0]

/-- Source: the weighted impurity `(left/n)·gini(left) + (right/n)·gini(right)`
of a committed partition. -/
def weightedGini (data l r : List TRow) : ℚ :=
  (l.length : ℚ) / data.length * calcGini l +
    (r.length : ℚ) / data.length * calcGini r

/-- The surviving candidate splits `(feature, threshold, weighted gini)` in
evaluation order (features in selected order, cut points in `[0.25, 0.5,
0.75]` order); a candidate is dropped when either side holds fewer than 5
rows (`if (left.length < 5 || right.length < 5) return`). -/
def splitCandidates (data : List TRow) (selected : List String) :
    List (String × ℚ × ℚ) :=
  selected.flatMap (fun f =>
    (thresholdsFor data f).filterMap (fun t =>
      let l := leftPart data f t
      let r := rightPart data f t
      if l.length < 5 ∨ r.length < 5 then none
      else some (f, t, weightedGini data l r)))

/-- One step of the running-best tracking: `if (gini < bestGini) update`, with
the initial `bestGini = Infinity` modelled as `none` (any candidate beats it);
ties keep the first encountered. -/
def bestStep (acc : String × ℚ × Option ℚ) (c : String × ℚ × ℚ) :
    String × ℚ × Option ℚ :=
  match acc.2.2 with
  | none => (c.1, c.2.1, some c.2.2)
  | some g => if c.2.2 < g then (c.1, c.2.1, some c.2.2) else acc

/-- The committed `(bestFeature, bestThreshold)` after scanning all surviving
candidates, starting from `(selected[0], 0, Infinity)`. -/
def bestSplit (data : List TRow) (selected : List String) : String × ℚ :=
  let r := (splitCandidates data selected).foldl bestStep (selected.headD "", 0, none)
  (r.1, r.2.1)

/-- Integer square root `Math.floor(Math.sqrt n)`: the largest `k` with
`k * k ≤ n`, in a kernel-computable form (shown equal to `Nat.sqrt` below). -/
def floorSqrt (n : ℕ) : ℕ :=
  ((List.range (n + 1)).filter (fun k => k * k ≤ n)).foldr max 0

/-- Source: `Math.max(1, Math.floor(Math.sqrt(features.length)))` features
drawn from a shuffle of the feature list (`[...features].sort(() => 0.5 -
Math.random()).slice(0, numFeatures)`); the per-node random shuffle is
modelled by the oracle `pick`, applied to the node's own row set so that
distinct nodes may draw distinct permutations. -/
def selectedFeatures (pick : List TRow → List String → List String)
    (data : List TRow) (features : List String) : List String :=
  (pick data features).take (max 1 (floorSqrt features.length))

/-- The recursion of `trainDecisionTree` with the depth argument replaced by
the remaining budget `maxDepth - depth`: `remaining = 0` is exactly the stop
condition `depth >= maxDepth`, and each recursive call at `depth + 1` has
budget `remaining - 1`. -/
def buildTree (pick : List TRow → List String → List String) :
    List TRow → List String → ℕ → DTree
  | data, _, 0 => .leaf (majorityPred data)
  | data, features, remaining + 1 =>
    if data.length < 15 then .leaf (majorityPred data)
    else
      let selected := selectedFeatures pick data features
      let best := bestSplit data selected
      let l := leftPart data best.1 best.2
      let r := rightPart data best.1 best.2
      if l.length = 0 ∨ r.length = 0 then .leaf (majorityPred data)
      else .node best.1 best.2 (buildTree pick l features remaining)
        (buildTree pick r features remaining)

/-- Source `trainDecisionTree(data, features, target, depth, maxDepth)`: leaf
with the majority class when `depth >= maxDepth || data.length < 15`;
otherwise evaluate candidate splits on a random feature subset, fall back to a
leaf when the committed partition has an empty side, else recurse at
`depth + 1` on both sides. -/
def trainDecisionTree (pick : List TRow → List String → List String)
    (data : List TRow) (features : List String) (depth maxDepth : ℕ) : DTree :=
  buildTree pick data features (maxDepth - depth)

/-- Source `predictTree`: leaves return their prediction; at an internal node
a null (or non-numeric) feature value returns `tree.prediction ?? 0`, which is
`0` because internal nodes carry no `prediction` field; otherwise descend by
the `<=` threshold test. -/
def predictTree : DTree → (String → Option ℚ) → ℕ
  | .leaf p, _ => p
  | .node f t l r, sample =>
    match sample f with
    | none => 0
    | some v => if v ≤ t then predictTree l sample else predictTree r sample

/-- Source `predictRF` vote counting: the number of trees voting class `k`. -/
def votes (trees : List DTree) (sample : String → Option ℚ) (k : ℕ) : ℕ :=
  (trees.filter (fun t => predictTree t sample = k)).length

/-- Source `predictRF`: the 4-entry class-probability vector, each vote count
divided by the number of trees. -/
def predictRF (trees : List DTree) (sample : String → Option ℚ) : List ℚ :=
  (List.range 4).map (fun k => (votes trees sample k : ℚ) / trees.length)

/-- Every leaf prediction is a class id below 4 (true of every tree the
trainer emits, since predictions are `counts.indexOf(...)` over the 4-entry
count vector). -/
def wfTree : DTree → Bool
  | .leaf p => decide (p < 4)
  | .node _ _ l r => wfTree l && wfTree r

/-- Number of internal nodes on the longest root-to-leaf path. -/
def treeDepth : DTree → ℕ
  | .leaf _ => 0
  | .node _ _ l r => 1 + max (treeDepth l) (treeDepth r)

/-- The 21 fixed feature names of the source (`expectedFeatures`). -/
def expectedFeatures : List String :=
  [ "spx_ret_1w_z", "spx_ret_3w_z", "spx_ret_6w_z", "vix_z", "rv_3w_z",
    "vix_ts_z", "vvix_z", "hy_ret_3w_z", "slope_2s10s_z", "pmi_z",
    "pmi_chg_3w_z", "breakeven10_z", "breakeven_chg_3w_z", "cpi_yoy_z",
    "ip_yoy_z", "unemp_z", "aaii_spread_z", "cg_ratio_z", "oil_ret_3w_z",
    "gold_ret_3w_z", "capex_ret_6w_z" ]

/-- The identity draw: one possible outcome of the per-node shuffle. -/
def pickId : List TRow → List String → List String := fun _ l => l

/-- A training row holding a single feature `"f"` with value `v` and label
`c`. -/
def rowF (v : ℚ) (c : ℕ) : TRow :=
  ⟨fun name => if name = "f" then some v else none, c⟩

/-- Twenty rows of class 2: ten with `f = 1` and ten with `f = 2`, so the
trainer splits at threshold 1 and every node's majority class is 2. -/
def data20 : List TRow :=
  List.replicate 10 (rowF 1 2) ++ List.replicate 10 (rowF 2 2)

/-- Fifteen rows: two with `f = -1`, thirteen with `f = 1`. Every candidate
cut point is 1 and leaves an empty right side, so no candidate survives; the
committed default split `(f, 0)` still has both sides non-empty. -/
def data15 : List TRow :=
  List.replicate 2 (rowF (-1) 0) ++ List.replicate 13 (rowF 1 0)

/-- A three-tree forest of class-1, class-1 and class-3 leaves. -/
def forest3 : List DTree := [.leaf 1, .leaf 1, .leaf 3]

/-! ## Backtest engine (`runBacktest`)

Date keys (source: ISO `YYYY-MM-DD` strings, unique keys of the three
per-date records, compared lexicographically) are modelled as naturals in
`YYYYMMDD` reading; the string order and the chronological order coincide
with the numeric order. The sector-return values are only tested for
presence by the engine, so the sector table is modelled by its date set. -/

/-- One row of the stock-returns table after upload normalization (rows with
a null/non-numeric return were already dropped, so `ret` is present). -/
structure StockRow where
  ticker : String
  sector : String
  ret : ℚ
deriving DecidableEq

/-- A long or short position of a trade record: ticker, sector, realized
trade-date return, signed portfolio weight, and P&L contribution. -/
structure Position where
  ticker : String
  sector : String
  stockRet : ℚ
  weight : ℚ
  pnl : ℚ
deriving DecidableEq

/-- Source `tradesByDate[tradeDate] = { date, regime, weeklyRet, longs,
shorts }`: the per-week trade record. -/
structure TradeRec where
  date : ℕ
  regime : ℕ
  weeklyRet : ℚ
  longs : List Position
  shorts : List Position
deriving DecidableEq

/-- The three input tables of `runBacktest`: the date-to-regime assignments
(`regimeByDate`, a record whose keys are unique; modelled as an association
list with the record's last-assignment-wins lookup), the set of dates holding
sector returns, and the stock rows keyed by date. -/
structure BTInput where
  regimes : List (ℕ × ℕ)
  sectorDates : List ℕ
  stocks : List (ℕ × StockRow)

/-- Source `regimeByDate[tradeDate]` (record assignment: the last write to a
key wins). -/
def lookupRegime (inp : BTInput) (d : ℕ) : Option ℕ :=
  (inp.regimes.reverse.find? (fun p => p.1 = d)).map Prod.snd

/-- Source `stocksByDate[d]`: the stock rows carrying date key `d`. -/
def stocksAt (inp : BTInput) (d : ℕ) : List StockRow :=
  (inp.stocks.filter (fun p => p.1 = d)).map Prod.snd

/-- Source `stockRetByDate[d][ticker]`: built by overwriting per ticker (the
last row wins) from the rows with a truthy ticker, so the lookup finds the
last row with that non-empty ticker. -/
def retLookup (rows : List StockRow) (tk : String) : Option ℚ :=
  ((rows.filter (fun r => r.ticker ≠ "")).reverse.find?
    (fun r => r.ticker = tk)).map StockRow.ret

/-- Source `regimeSectorConfig`: the static regime id to (long sector list,
short sector list) mapping. -/
def regimeSectorConfig : ℕ → Option (List String × List String)
  | 0 => some (["XLY US Equity", "XLK US Equity", "XLF US Equity"],
               ["XLU US Equity", "XLP US Equity"])
  | 1 => some (["XLP US Equity", "XLU US Equity", "XLV US Equity"],
               ["XLY US Equity", "XLF US Equity", "XLI US Equity"])
  | 2 => some (["XLE US Equity", "XLB US Equity"],
               ["XLF US Equity", "XLK US Equity", "XLY US Equity"])
  | 3 => some (["XLF US Equity", "XLI US Equity", "XLV US Equity"],
               ["XLU US Equity", "XLP US Equity"])
  | _ => none

/-- Source cutoff `new Date("2015-01-01")` in `YYYYMMDD` reading. -/
def cutoff : ℕ := 20150101

/-- Source initial capital. -/
def initialCapital : ℚ := 1000000

/-- Per-sector candidate selection: rank the sector's constituents on the
rank date (descending prior return for the long book, ascending for the short
book; JavaScript's stable sort modelled by `insertionSort`), take the top 5,
and keep those with an observed trade-date return. -/
def selectBook (rankStocks : List StockRow) (todayRets : String → Option ℚ)
    (sectors : List String) (descending : Bool) : List (String × String × ℚ) :=
  sectors.flatMap (fun sec =>
    ((List.insertionSort
        (fun a b => if descending then b.ret ≤ a.ret else a.ret ≤ b.ret)
        (rankStocks.filter (fun s => s.sector = sec))).take 5).filterMap
      (fun s => (todayRets s.ticker).map (fun r => (s.ticker, s.sector, r))))

/-- Builds a traded week's record from the surviving candidates: equal signed
weight `0.5 / n` within each book (`0` for an empty book, whose mass is not
reallocated), per-position P&L contribution `weight × trade-date return`, and
weekly return accumulated over all positions, long book then short book. -/
def mkWeek (d rg : ℕ) (longC shortC : List (String × String × ℚ)) : TradeRec :=
  let longWeight : ℚ := if 0 < longC.length then (1/2) / longC.length else 0
  let shortWeight : ℚ := if 0 < shortC.length then (1/2) / shortC.length else 0
  let longs := longC.map (fun c =>
    Position.mk c.1 c.2.1 c.2.2 longWeight (longWeight * c.2.2))
  let shorts := shortC.map (fun c =>
    Position.mk c.1 c.2.1 c.2.2 (-shortWeight) (-shortWeight * c.2.2))
  TradeRec.mk d rg ((longs.map Position.pnl).sum + (shorts.map Position.pnl).sum)
    longs shorts

/-- The simulated weeks: for each `(rankDate, tradeDate)` pair of consecutive
common dates, skip pre-cutoff trade dates; a missing regime configuration or
an empty candidate set records a zero-return week (equity-curve entry only);
otherwise build the equally-weighted half-books, realize the weekly return,
compound equity, and store a trade record. Returns the equity curve entries
`(date, equity, weekly return)` and the trade records, in week order. -/
def btLoop (inp : BTInput) : List (ℕ × ℕ) → ℚ → List (ℕ × ℚ × ℚ) × List TradeRec
  | [], _ => ([], [])
  | (rankDate, tradeDate) :: rest, equity =>
    if tradeDate < cutoff then btLoop inp rest equity
    else
      match (lookupRegime inp tradeDate).bind
        (fun rg => (regimeSectorConfig rg).map (fun c => (rg, c))) with
      | none =>
        let acc := btLoop inp rest equity
        ((tradeDate, equity, 0) :: acc.1, acc.2)
      | some (rg, config) =>
        let rankStocks := stocksAt inp rankDate
        let todayRets := fun tk => retLookup (stocksAt inp tradeDate) tk
        let longC := selectBook rankStocks todayRets config.1 true
        let shortC := selectBook rankStocks todayRets config.2 false
        if longC.length + shortC.length = 0 then
          let acc := btLoop inp rest equity
          ((tradeDate, equity, 0) :: acc.1, acc.2)
        else
          let tr := mkWeek tradeDate rg longC shortC
          let equity2 := equity * (1 + tr.weeklyRet)
          let acc := btLoop inp rest equity2
          ((tradeDate, equity2, tr.weeklyRet) :: acc.1, tr :: acc.2)

/-- Source `allDates`: the regime dates also present in the sector and stock
tables, sorted ascending. -/
def sortedCommonDates (inp : BTInput) : List ℕ :=
  List.insertionSort (fun a b => a ≤ b)
    ((inp.regimes.map Prod.fst).filter
      (fun d => decide (d ∈ inp.sectorDates) && decide (stocksAt inp d ≠ [])))

/-- The backtest result: the equity curve and the per-week trade records. -/
structure BTResult where
  curve : List (ℕ × ℚ × ℚ)
  trades : List TradeRec
deriving DecidableEq

/-- Source `runBacktest`: `none` models the two hard-failure alerts (fewer
than 2 overlapping dates; no valid week after the 2015 cutoff), in which case
no equity curve is produced; otherwise the loop runs over consecutive date
pairs `(allDates[i-1], allDates[i])` for `i ≥ 1` starting from the initial
capital. -/
def runBacktest (inp : BTInput) : Option BTResult :=
  let allDates := sortedCommonDates inp
  if allDates.length < 2 then none
  else
    let acc := btLoop inp (allDates.zip allDates.tail) initialCapital
    if acc.1.length = 0 then none
    else some (BTResult.mk acc.1 acc.2)

/-- The compounding recurrence along an equity curve: each entry's equity is
the previous equity times `1 + weekly return`, starting from `e0` (so a
zero-return week leaves equity unchanged). -/
def recurFrom (e0 : ℚ) : List (ℕ × ℚ × ℚ) → Prop
  | [] => True
  | e :: rest => e.2.1 = e0 * (1 + e.2.2) ∧ recurFrom e.2.1 rest

/-- Two common dates assigned regime 7, which has no configured sector
mapping, with one stock row per date. -/
def cInp9 : BTInput :=
  ⟨[(20150102, 7), (20150109, 7)], [20150102, 20150109],
   [(20150102, ⟨"AAA", "XLY US Equity", 1/10⟩),
    (20150109, ⟨"AAA", "XLY US Equity", 1/5⟩)]⟩

/-- Two common dates assigned regime 0 (Goldilocks), with one `XLY US Equity`
constituent present on both dates: the trade week holds one long candidate
and no short candidate. -/
def cInp6 : BTInput :=
  ⟨[(20150102, 0), (20150109, 0)], [20150102, 20150109],
   [(20150102, ⟨"AAA", "XLY US Equity", 1/10⟩),
    (20150109, ⟨"AAA", "XLY US Equity", 1/5⟩)]⟩

/-- The trade record of `cInp6`'s single simulated week: one long position at
weight `0.5 / 1`, no shorts. -/
def tr6 : TradeRec :=
  ⟨20150109, 0, 1/10, [⟨"AAA", "XLY US Equity", 1/5, 1/2, 1/10⟩], []⟩

/-- The backtest result of `cInp6`: one traded week compounding the initial
capital by `1 + 0.1`. -/
def cRes6 : BTResult := ⟨[(20150109, 1100000, 1/10)], [tr6]⟩

/-! ## Theorems -/

/-- The first-match evaluation of the ordered rule list unfolds to the nested
conditional with the four primary rules tried in order. -/
theorem labelRegimeSpec_eq_ite (row : FeatureRow) :
    labelRegimeSpec row =
      if row.Gz ≤ 0 ∧ row.Iz ≥ 0.75 ∧ row.Vz ≥ 0 then 2
      else if row.Rz ≥ 0.5 ∧ row.Vz ≤ -0.5 ∧ row.volStress < -0.3 then 3
      else if row.Rz ≤ -0.5 ∧ row.Gz ≤ 0 ∧ row.Vz ≥ 0 then 1
      else if row.Rz ≥ 0.5 ∧ row.Vz ≤ 0 ∧ row.Gz ≥ 0 ∧ row.Iz ≥ -0.5 ∧ row.Iz ≤ 0.75 then 0
      else fallbackCascade row := by
  unfold labelRegimeSpec regimeRuleList
  cases hc1 : decide (row.Gz ≤ 0 ∧ row.Iz ≥ 0.75 ∧ row.Vz ≥ 0) <;>
  cases hc2 : decide (row.Rz ≥ 0.5 ∧ row.Vz ≤ -0.5 ∧ row.volStress < -0.3) <;>
  cases hc3 : decide (row.Rz ≤ -0.5 ∧ row.Gz ≤ 0 ∧ row.Vz ≥ 0) <;>
  cases hc4 : decide (row.Rz ≥ 0.5 ∧ row.Vz ≤ 0 ∧ row.Gz ≥ 0 ∧ row.Iz ≥ -0.5 ∧ row.Iz ≤ 0.75)
  all_goals simp only [List.find?, hc1, hc2, hc3, hc4]
  all_goals try rw [if_neg (of_decide_eq_false hc1)]
  all_goals try rw [if_pos (of_decide_eq_true hc1)]
  all_goals try rw [if_neg (of_decide_eq_false hc2)]
  all_goals try rw [if_pos (of_decide_eq_true hc2)]
  all_goals try rw [if_neg (of_decide_eq_false hc3)]
  all_goals try rw [if_pos (of_decide_eq_true hc3)]
  all_goals try rw [if_neg (of_decide_eq_false hc4)]
  all_goals try rw [if_pos (of_decide_eq_true hc4)]

/-- Every element of a list of naturals is bounded by its `foldr max 0`. -/
theorem le_foldr_max (l : List ℕ) (x : ℕ) (h : x ∈ l) : x ≤ l.foldr max 0 := by
  induction l with
  | nil => cases h
  | cons a l ih =>
    rcases List.mem_cons.mp h with rfl | hx
    · exact le_max_left _ _
    · exact le_trans (ih hx) (le_max_right _ _)

/-- The `foldr max 0` of a list of naturals is bounded by any upper bound of
its elements. -/
theorem foldr_max_le (l : List ℕ) (b : ℕ) (h : ∀ x ∈ l, x ≤ b) :
    l.foldr max 0 ≤ b := by
  induction l with
  | nil => exact Nat.zero_le b
  | cons a l ih =>
    exact max_le (h a (List.mem_cons_self a l))
      (ih (fun x hx => h x (List.mem_cons_of_mem a hx)))

/-- The kernel-computable integer square root agrees with `Nat.sqrt`. -/
theorem floorSqrt_eq_sqrt (n : ℕ) : floorSqrt n = Nat.sqrt n := by
  unfold floorSqrt
  apply le_antisymm
  · apply foldr_max_le
    intro x hx
    rw [List.mem_filter] at hx
    exact Nat.le_sqrt.mpr (by simpa using hx.2)
  · apply le_foldr_max
    rw [List.mem_filter]
    constructor
    · exact List.mem_range.mpr (Nat.lt_succ_of_le (Nat.sqrt_le_self n))
    · simpa using Nat.sqrt_le n

/-- The tree built with remaining budget `rem` has at most `rem` internal
nodes on any root-to-leaf path. -/
theorem treeDepth_buildTree_le (pick : List TRow → List String → List String) :
    ∀ (rem : ℕ) (data : List TRow) (features : List String),
      treeDepth (buildTree pick data features rem) ≤ rem := by
  intro rem
  induction rem with
  | zero => intro data features; simp [buildTree, treeDepth]
  | succ n ih =>
    intro data features
    simp only [buildTree]
    split
    · simp [treeDepth]
    · split
      · simp [treeDepth]
      · simp only [treeDepth]
        have h1 := ih (leftPart data (bestSplit data (selectedFeatures pick data features)).1
          (bestSplit data (selectedFeatures pick data features)).2) features
        have h2 := ih (rightPart data (bestSplit data (selectedFeatures pick data features)).1
          (bestSplit data (selectedFeatures pick data features)).2) features
        omega

/-- C10: the tree trainer terminates with recursion depth bounded by the depth
budget: the returned tree has at most `maxDepth - depth` (hence at most
`maxDepth`) internal nodes on any root-to-leaf path, and a call at
`depth ≥ maxDepth` immediately returns a majority-class leaf. -/
theorem trainDecisionTree_depth_bounded
    (pick : List TRow → List String → List String) (data : List TRow)
    (features : List String) (depth maxDepth : ℕ) :
    treeDepth (trainDecisionTree pick data features depth maxDepth) ≤ maxDepth - depth ∧
    treeDepth (trainDecisionTree pick data features depth maxDepth) ≤ maxDepth ∧
    (maxDepth ≤ depth →
      trainDecisionTree pick data features depth maxDepth
        = .leaf (majorityPred data)) := by
  refine ⟨treeDepth_buildTree_le pick _ data features, ?_, ?_⟩
  · exact le_trans (treeDepth_buildTree_le pick _ data features) (Nat.sub_le _ _)
  · intro h
    unfold trainDecisionTree
    rw [Nat.sub_eq_zero_of_le h]
    rfl

/-- Closed instance of the depth-bound theorem at a concrete call with
`depth > maxDepth`. -/
theorem trainDecisionTree_depth_bounded_witness :
    trainDecisionTree pickId [] [] 5 3 = .leaf (majorityPred []) :=
  (trainDecisionTree_depth_bounded pickId [] [] 5 3).2.2 (by decide)

/-- C3 counterexample: with the 21 fixed features the drawn subset has
`Math.max(1, Math.floor(Math.sqrt(21))) = 4` elements, not the 5 elements
(`⌈√21⌉`) the claim states. -/
theorem selectedFeatures_not_five : expectedFeatures.length = 21 ∧
    (selectedFeatures pickId [] expectedFeatures).length = 4 ∧
    (selectedFeatures pickId [] expectedFeatures).length ≠ 5 := by decide

/-- C3 amended: at every non-leaf node the drawn feature subset has
`max 1 ⌊√(#features)⌋` elements (truncated to the feature count) without
replacement; with the 21 fixed features the subset has exactly 4 elements. -/
theorem selectedFeatures_card (pick : List TRow → List String → List String)
    (data : List TRow) (features : List String)
    (hperm : ∀ d l, (pick d l).Perm l) (hnd : features.Nodup) :
    (selectedFeatures pick data features).length
      = min (max 1 (Nat.sqrt features.length)) features.length ∧
    (selectedFeatures pick data features).Nodup ∧
    (features.length = 21 → (selectedFeatures pick data features).length = 4) := by
  have hlen : (pick data features).length = features.length :=
    (hperm data features).length_eq
  refine ⟨?_, ?_, ?_⟩
  · simp [selectedFeatures, hlen, floorSqrt_eq_sqrt]
  · exact List.Nodup.sublist (List.take_sublist _ _)
      (((hperm data features).nodup_iff).mpr hnd)
  · intro h21
    have h4 : floorSqrt 21 = 4 := by decide
    simp [selectedFeatures, hlen, h21, h4]

/-- Closed instance of the amended feature-subset theorem on the 21 fixed
features with the identity draw. -/
theorem selectedFeatures_card_witness :
    (selectedFeatures pickId [] expectedFeatures).length = 4 :=
  (selectedFeatures_card pickId [] expectedFeatures (fun _ _ => List.Perm.refl _)
    (by decide)).2.2 (by decide)

/-- C1: the trainer builds an internal root over `data20` whose training rows
have majority class 2, yet prediction with the split feature missing returns
0, not the node's majority class: internal nodes carry no `prediction` field,
so `tree.prediction ?? 0` falls back to 0. -/
theorem predictTree_missing_value_zero :
    trainDecisionTree pickId data20 ["f"] 0 12
        = .node "f" 1 (.leaf 2) (.leaf 2) ∧
    predictTree (trainDecisionTree pickId data20 ["f"] 0 12) (fun _ => none) = 0 ∧
    majorityPred data20 = 2 := by decide

/-- C2 counterexample: on `data15` no candidate split survives evaluation, yet
the trainer returns an internal node (on the default split `(selected[0], 0)`)
whose left partition holds only 2 rows — not a leaf, and not a partition with
at least 5 rows per side. -/
theorem trainDecisionTree_default_split_counterexample :
    splitCandidates data15 (selectedFeatures pickId data15 ["f"]) = [] ∧
    trainDecisionTree pickId data15 ["f"] 0 12
      = .node "f" 0 (.leaf 0) (.leaf 0) ∧
    (leftPart data15 "f" 0).length = 2 := by decide

/-- Every surviving candidate split has at least 5 rows on each side (the
`left.length < 5 || right.length < 5` rejection). -/
theorem splitCandidates_sides (data : List TRow) (sel : List String)
    (f : String) (t g : ℚ) (h : (f, t, g) ∈ splitCandidates data sel) :
    5 ≤ (leftPart data f t).length ∧ 5 ≤ (rightPart data f t).length := by
  unfold splitCandidates at h
  rw [List.mem_flatMap] at h
  obtain ⟨f', _, hf⟩ := h
  rw [List.mem_filterMap] at hf
  obtain ⟨t', _, hsome⟩ := hf
  by_cases hrej : (leftPart data f' t').length < 5 ∨ (rightPart data f' t').length < 5
  · simp [hrej] at hsome
  · simp [hrej] at hsome
    obtain ⟨rfl, rfl, -⟩ := hsome
    omega

/-- The best-split fold either returns its initial accumulator or one of the
candidates it scanned. -/
theorem foldl_bestStep_cases (cs : List (String × ℚ × ℚ)) :
    ∀ acc : String × ℚ × Option ℚ,
      cs.foldl bestStep acc = acc ∨
      ∃ c ∈ cs, cs.foldl bestStep acc = (c.1, c.2.1, some c.2.2) := by
  induction cs with
  | nil => intro acc; exact Or.inl rfl
  | cons c cs ih =>
    intro acc
    rw [List.foldl_cons]
    rcases ih (bestStep acc c) with h | ⟨c', hc', h⟩
    · rw [h]
      unfold bestStep
      rcases hacc : acc.2.2 with - | g
      · exact Or.inr ⟨c, List.mem_cons_self c cs, rfl⟩
      · by_cases hlt : c.2.2 < g
        · exact Or.inr ⟨c, List.mem_cons_self c cs, by simp [hlt]⟩
        · refine Or.inl ?_
          simp [hlt, Prod.ext_iff, hacc]
    · exact Or.inr ⟨c', List.mem_cons_of_mem c hc', h⟩

/-- Once the running best carries a finite gini, it keeps one through the rest
of the fold. -/
theorem foldl_bestStep_isSome (cs : List (String × ℚ × ℚ)) :
    ∀ acc : String × ℚ × Option ℚ, acc.2.2.isSome →
      (cs.foldl bestStep acc).2.2.isSome := by
  induction cs with
  | nil => intro acc h; exact h
  | cons c cs ih =>
    intro acc h
    rw [List.foldl_cons]
    apply ih
    unfold bestStep
    rcases hacc : acc.2.2 with - | g
    · simp
    · by_cases hlt : c.2.2 < g <;> simp [hlt, hacc]

/-- When at least one candidate survives, the committed `(feature, threshold)`
is one of the surviving candidates. -/
theorem bestSplit_mem_of_ne_nil (data : List TRow) (sel : List String)
    (h : splitCandidates data sel ≠ []) :
    ∃ g, ((bestSplit data sel).1, (bestSplit data sel).2, g)
      ∈ splitCandidates data sel := by
  unfold bestSplit
  rcases hcs : splitCandidates data sel with - | ⟨c, cs⟩
  · exact absurd hcs h
  have hsome : ((c :: cs).foldl bestStep (sel.headD "", 0, none)).2.2.isSome := by
    rw [List.foldl_cons]
    apply foldl_bestStep_isSome
    unfold bestStep
    simp
  rcases foldl_bestStep_cases (c :: cs) (sel.headD "", 0, none) with heq | ⟨c', hc', heq⟩
  · rw [heq] at hsome
    simp at hsome
  · rw [heq] at hsome ⊢
    exact ⟨c'.2.2, by simpa using hc'⟩

/-- When no candidate survives, the committed split is the default
`(selected[0], 0)`. -/
theorem bestSplit_of_nil (data : List TRow) (sel : List String)
    (h : splitCandidates data sel = []) :
    bestSplit data sel = (sel.headD "", 0) := by
  unfold bestSplit
  rw [h]
  rfl

/-- C2 amended: past the stop condition the trainer commits to the best
surviving candidate, or to the default split `(selected[0], 0)` when no
candidate survives; it returns a leaf exactly when the committed partition has
an empty side. When a candidate survives, the emitted internal node's sides
each hold at least 5 rows; when none survives and the default partition has
both sides non-empty, an internal node is emitted whose sides may hold fewer
than 5 rows (see the counterexample). -/
theorem trainDecisionTree_no_survivor_behavior
    (pick : List TRow → List String → List String) (data : List TRow)
    (features : List String) (depth maxDepth : ℕ)
    (hd : depth < maxDepth) (hn : 15 ≤ data.length) :
    (splitCandidates data (selectedFeatures pick data features) = [] →
      ((leftPart data ((selectedFeatures pick data features).headD "") 0).length = 0 ∨
       (rightPart data ((selectedFeatures pick data features).headD "") 0).length = 0) →
      trainDecisionTree pick data features depth maxDepth
        = .leaf (majorityPred data)) ∧
    (splitCandidates data (selectedFeatures pick data features) ≠ [] →
      5 ≤ (leftPart data (bestSplit data (selectedFeatures pick data features)).1
            (bestSplit data (selectedFeatures pick data features)).2).length ∧
      5 ≤ (rightPart data (bestSplit data (selectedFeatures pick data features)).1
            (bestSplit data (selectedFeatures pick data features)).2).length ∧
      trainDecisionTree pick data features depth maxDepth
        = .node (bestSplit data (selectedFeatures pick data features)).1
            (bestSplit data (selectedFeatures pick data features)).2
            (trainDecisionTree pick
              (leftPart data (bestSplit data (selectedFeatures pick data features)).1
                (bestSplit data (selectedFeatures pick data features)).2)
              features (depth + 1) maxDepth)
            (trainDecisionTree pick
              (rightPart data (bestSplit data (selectedFeatures pick data features)).1
                (bestSplit data (selectedFeatures pick data features)).2)
              features (depth + 1) maxDepth)) := by
  have hrem : maxDepth - depth = (maxDepth - (depth + 1)) + 1 := by omega
  constructor
  · intro hcs hempty
    unfold trainDecisionTree
    rw [hrem]
    simp only [buildTree]
    rw [if_neg (by omega)]
    rw [bestSplit_of_nil data _ hcs]
    rw [if_pos (by simpa using hempty)]
  · intro hcs
    obtain ⟨g, hmem⟩ := bestSplit_mem_of_ne_nil data _ hcs
    obtain ⟨hl5, hr5⟩ := splitCandidates_sides data _ _ _ _ hmem
    refine ⟨hl5, hr5, ?_⟩
    unfold trainDecisionTree
    rw [hrem]
    simp only [buildTree]
    rw [if_neg (by omega)]
    rw [if_neg (by omega)]

/-- Closed instance of the amended no-survivor theorem: fifteen identical rows
reject every candidate and the default split has an empty left side, so the
trainer returns a majority leaf. -/
theorem trainDecisionTree_no_survivor_witness :
    trainDecisionTree pickId (List.replicate 15 (rowF 1 0)) ["f"] 0 12
      = .leaf (majorityPred (List.replicate 15 (rowF 1 0))) :=
  (trainDecisionTree_no_survivor_behavior pickId (List.replicate 15 (rowF 1 0))
    ["f"] 0 12 (by decide) (by decide)).1 (by decide) (by decide)

/-- A well-formed tree predicts a class id below 4 on every sample (a missing
split-feature value yields 0, which is also below 4). -/
theorem predictTree_lt_four (t : DTree) (h : wfTree t = true)
    (sample : String → Option ℚ) : predictTree t sample < 4 := by
  induction t with
  | leaf p => simpa [wfTree, predictTree] using h
  | node f th l r ihl ihr =>
    rw [wfTree, Bool.and_eq_true] at h
    rw [predictTree]
    cases hsf : sample f with
    | none => exact show (0 : ℕ) < 4 by omega
    | some v =>
      dsimp only
      split_ifs
      · exact ihl h.1
      · exact ihr h.2

/-- Each tree of a well-formed forest votes for exactly one of the 4 classes,
so the four vote counts sum to the number of trees. -/
theorem votes_sum (trees : List DTree) (sample : String → Option ℚ)
    (h : ∀ t ∈ trees, wfTree t = true) :
    votes trees sample 0 + votes trees sample 1 + votes trees sample 2 +
      votes trees sample 3 = trees.length := by
  induction trees with
  | nil => rfl
  | cons t ts ih =>
    have hv : ∀ k, votes (t :: ts) sample k
        = (if predictTree t sample = k then 1 else 0) + votes ts sample k := by
      intro k
      simp only [votes, List.filter_cons]
      split_ifs <;> simp_all
      omega
    have hts := ih (fun u hu => h u (List.mem_cons_of_mem t hu))
    have hlt : predictTree t sample < 4 :=
      predictTree_lt_four t (h t (List.mem_cons_self t ts)) sample
    rw [hv 0, hv 1, hv 2, hv 3, List.length_cons]
    rcases (by omega : predictTree t sample = 0 ∨ predictTree t sample = 1 ∨
        predictTree t sample = 2 ∨ predictTree t sample = 3) with hk | hk | hk | hk <;>
      rw [hk] <;> simp <;> omega

/-- C5: for a well-formed forest with at least one tree, `predictRF` returns a
probability vector of exactly 4 non-negative entries (each a vote count
divided by the number of trees) summing to 1. -/
theorem predictRF_prob_vector (trees : List DTree)
    (sample : String → Option ℚ) (hne : 0 < trees.length)
    (hwf : ∀ t ∈ trees, wfTree t = true) :
    (predictRF trees sample).length = 4 ∧
    (∀ p ∈ predictRF trees sample, 0 ≤ p) ∧
    (predictRF trees sample).sum = 1 := by
  refine ⟨by simp [predictRF], ?_, ?_⟩
  · intro p hp
    rw [predictRF, List.mem_map] at hp
    obtain ⟨k, -, rfl⟩ := hp
    positivity
  · have hrange : List.range 4 = [0, 1, 2, 3] := rfl
    have hpos : (0 : ℚ) < trees.length := by exact_mod_cast hne
    have hn : ((trees.length : ℚ)) ≠ 0 := ne_of_gt hpos
    have hsum : ((votes trees sample 0 : ℚ) + votes trees sample 1 +
        votes trees sample 2 + votes trees sample 3) = (trees.length : ℚ) := by
      exact_mod_cast votes_sum trees sample hwf
    rw [predictRF, hrange]
    simp only [List.map_cons, List.map_nil, List.sum_cons, List.sum_nil]
    field_simp
    linarith [hsum]

/-- Closed instance of the probability-vector theorem on a concrete
three-tree forest. -/
theorem predictRF_prob_vector_witness :
    (predictRF forest3 (fun _ => none)).length = 4 ∧
    (∀ p ∈ predictRF forest3 (fun _ => none), 0 ≤ p) ∧
    (predictRF forest3 (fun _ => none)).sum = 1 :=
  predictRF_prob_vector forest3 (fun _ => none) (by decide) (by decide)

/-- Summing a constant over a list multiplies it by the length. -/
theorem sum_map_const {α : Type} (l : List α) (w : ℚ) :
    (l.map (fun _ => w)).sum = l.length * w := by
  induction l with
  | nil => simp
  | cons a l ih =>
    simp [ih]
    ring

/-- Summing the weights of positions built with a constant weight field. -/
theorem sum_map_weight {α : Type} (l : List α) (f : α → Position) (w : ℚ)
    (hw : ∀ a, (f a).weight = w) :
    ((l.map f).map Position.weight).sum = l.length * w := by
  rw [List.map_map]
  have hfun : (Position.weight ∘ f) = fun _ => w := funext (fun a => hw a)
  rw [hfun, sum_map_const]

/-- Position-level properties of a traded week's record: equal per-position
weights `0.5 / n` (signed), half-notional book sums whenever a book is
non-empty, and weekly return equal to the weighted sum of trade-date
returns. -/
theorem mkWeek_props (d rg : ℕ) (longC shortC : List (String × String × ℚ)) :
    (∀ p ∈ (mkWeek d rg longC shortC).longs,
      p.weight = (1/2) / (mkWeek d rg longC shortC).longs.length ∧
      p.pnl = p.weight * p.stockRet) ∧
    (∀ p ∈ (mkWeek d rg longC shortC).shorts,
      p.weight = -((1/2) / (mkWeek d rg longC shortC).shorts.length) ∧
      p.pnl = p.weight * p.stockRet) ∧
    ((mkWeek d rg longC shortC).longs ≠ [] →
      ((mkWeek d rg longC shortC).longs.map Position.weight).sum = 1/2) ∧
    ((mkWeek d rg longC shortC).shorts ≠ [] →
      ((mkWeek d rg longC shortC).shorts.map Position.weight).sum = -(1/2)) ∧
    (mkWeek d rg longC shortC).weeklyRet
      = ((mkWeek d rg longC shortC).longs.map (fun p => p.weight * p.stockRet)).sum
        + ((mkWeek d rg longC shortC).shorts.map (fun p => p.weight * p.stockRet)).sum := by
  unfold mkWeek
  simp only
  refine ⟨?_, ?_, ?_, ?_, ?_⟩
  · intro p hp
    simp only [List.mem_map] at hp
    obtain ⟨c, hc, rfl⟩ := hp
    have hpos : 0 < longC.length := List.length_pos.mpr (List.ne_nil_of_mem hc)
    constructor
    · simp [hpos]
    · rfl
  · intro p hp
    simp only [List.mem_map] at hp
    obtain ⟨c, hc, rfl⟩ := hp
    have hpos : 0 < shortC.length := List.length_pos.mpr (List.ne_nil_of_mem hc)
    constructor
    · simp [hpos]
    · rfl
  · intro hne2
    have hpos : 0 < longC.length := by
      rw [List.length_pos]
      simpa using hne2
    have hn0 : (longC.length : ℚ) ≠ 0 := by
      exact_mod_cast Nat.pos_iff_ne_zero.mp hpos
    rw [sum_map_weight longC _
      (if 0 < longC.length then (1/2) / (longC.length : ℚ) else 0) (fun a => rfl),
      if_pos hpos]
    field_simp
    ring
  · intro hne2
    have hpos : 0 < shortC.length := by
      rw [List.length_pos]
      simpa using hne2
    have hn0 : (shortC.length : ℚ) ≠ 0 := by
      exact_mod_cast Nat.pos_iff_ne_zero.mp hpos
    rw [sum_map_weight shortC _
      (-(if 0 < shortC.length then (1/2) / (shortC.length : ℚ) else 0)) (fun a => rfl),
      if_pos hpos]
    field_simp
    ring
  · simp only [List.map_map]
    rfl

/-- Every trade record stored by the simulation loop is a traded week's
record. -/
theorem btLoop_trades_are_weeks (inp : BTInput) :
    ∀ (pairs : List (ℕ × ℕ)) (equity : ℚ) (tr : TradeRec),
      tr ∈ (btLoop inp pairs equity).2 →
      ∃ d rg longC shortC, tr = mkWeek d rg longC shortC := by
  intro pairs
  induction pairs with
  | nil =>
    intro equity tr h
    simp [btLoop] at h
  | cons pr rest ih =>
    obtain ⟨rankDate, tradeDate⟩ := pr
    intro equity tr h
    simp only [btLoop] at h
    split at h
    · exact ih equity tr h
    split at h
    · exact ih equity tr h
    split at h
    · exact ih equity tr h
    rw [List.mem_cons] at h
    rcases h with rfl | h
    · exact ⟨_, _, _, _, rfl⟩
    · exact ih _ tr h

/-- C6: in every traded week the long book splits weight `0.5 / nL` equally
(so the long weights sum to `0.5` whenever a long candidate survives), the
short book splits `-0.5 / nS` equally (summing to `-0.5` whenever a short
candidate survives), the weekly return is the sum of `weight × trade-date
return` over all surviving candidates, and an empty book contributes nothing
(its half of the notional is not reallocated to the other book). -/
theorem btLoop_trade_weights (inp : BTInput) (pairs : List (ℕ × ℕ)) (equity : ℚ)
    (tr : TradeRec) (h : tr ∈ (btLoop inp pairs equity).2) :
    (∀ p ∈ tr.longs, p.weight = (1/2) / tr.longs.length ∧
      p.pnl = p.weight * p.stockRet) ∧
    (∀ p ∈ tr.shorts, p.weight = -((1/2) / tr.shorts.length) ∧
      p.pnl = p.weight * p.stockRet) ∧
    (tr.longs ≠ [] → (tr.longs.map Position.weight).sum = 1/2) ∧
    (tr.shorts ≠ [] → (tr.shorts.map Position.weight).sum = -(1/2)) ∧
    tr.weeklyRet = (tr.longs.map (fun p => p.weight * p.stockRet)).sum
      + (tr.shorts.map (fun p => p.weight * p.stockRet)).sum := by
  obtain ⟨d, rg, longC, shortC, rfl⟩ := btLoop_trades_are_weeks inp pairs equity tr h
  exact mkWeek_props d rg longC shortC

/-- C4: the regime labeler is a total deterministic function returning a regime
id in 0..3, and it agrees with the first-matching-rule evaluation of the
ordered rule list of section 4.1 (Stagflation, Overheating, Slowdown,
Goldilocks, then the fallback cascade). -/
theorem labelRegime_first_match_and_range (row : FeatureRow) :
    labelRegime row = labelRegimeSpec row ∧ labelRegime row < 4 := by
  constructor
  · rw [labelRegimeSpec_eq_ite]
    unfold labelRegime fallbackCascade
    rfl
  · unfold labelRegime
    split_ifs <;> norm_num

/-- The equity-curve dates produced by the loop are a sublist of the trade
dates of the processed pairs. -/
theorem btLoop_curve_dates_sublist (inp : BTInput) :
    ∀ (pairs : List (ℕ × ℕ)) (equity : ℚ),
      ((btLoop inp pairs equity).1.map Prod.fst).Sublist (pairs.map Prod.snd) := by
  intro pairs
  induction pairs with
  | nil =>
    intro equity
    simp [btLoop]
  | cons pr rest ih =>
    obtain ⟨rankDate, tradeDate⟩ := pr
    intro equity
    simp only [btLoop, List.map_cons]
    split
    · exact (ih equity).cons tradeDate
    split
    · exact (ih equity).cons₂ tradeDate
    split
    · exact (ih equity).cons₂ tradeDate
    · exact (ih _).cons₂ tradeDate

/-- The trade-record dates produced by the loop are a sublist of the trade
dates of the processed pairs. -/
theorem btLoop_trade_dates_sublist (inp : BTInput) :
    ∀ (pairs : List (ℕ × ℕ)) (equity : ℚ),
      ((btLoop inp pairs equity).2.map TradeRec.date).Sublist (pairs.map Prod.snd) := by
  intro pairs
  induction pairs with
  | nil =>
    intro equity
    simp [btLoop]
  | cons pr rest ih =>
    obtain ⟨rankDate, tradeDate⟩ := pr
    intro equity
    simp only [btLoop, List.map_cons]
    split
    · exact (ih equity).cons tradeDate
    split
    · exact (ih equity).cons tradeDate
    split
    · exact (ih equity).cons tradeDate
    · exact (ih _).cons₂ tradeDate

/-- The loop's equity curve satisfies the compounding recurrence from its
starting equity. -/
theorem btLoop_recur (inp : BTInput) :
    ∀ (pairs : List (ℕ × ℕ)) (equity : ℚ),
      recurFrom equity (btLoop inp pairs equity).1 := by
  intro pairs
  induction pairs with
  | nil =>
    intro equity
    simp [btLoop, recurFrom]
  | cons pr rest ih =>
    obtain ⟨rankDate, tradeDate⟩ := pr
    intro equity
    simp only [btLoop]
    split
    · exact ih equity
    split
    · exact ⟨by ring, ih equity⟩
    split
    · exact ⟨by ring, ih equity⟩
    · exact ⟨rfl, ih _⟩

/-- With unique regime dates, the common-date list is strictly increasing. -/
theorem sortedCommonDates_pairwise (inp : BTInput)
    (h : (inp.regimes.map Prod.fst).Nodup) :
    (sortedCommonDates inp).Pairwise (· < ·) := by
  have hs : List.Sorted (fun a b => a ≤ b) (sortedCommonDates inp) :=
    List.sorted_insertionSort _ _
  have hnd : (sortedCommonDates inp).Nodup :=
    ((List.perm_insertionSort _ _).nodup_iff).mpr (h.filter _)
  exact (hs.and hnd).imp (fun hab => lt_of_le_of_ne hab.1 hab.2)

/-- C7: when the backtest succeeds (given the source invariant that the
regime record has unique date keys), the equity curve is strictly increasing
by date with one entry per simulated week, satisfies
`equity[i] = equity[i-1] * (1 + weeklyReturn[i])` from the initial capital
(hence zero-return weeks leave equity unchanged), and never contains the
first common date, which serves only as a ranking reference. -/
theorem runBacktest_curve_invariants (inp : BTInput) (res : BTResult)
    (hnd : (inp.regimes.map Prod.fst).Nodup)
    (hres : runBacktest inp = some res) :
    res.curve.Pairwise (fun a b => a.1 < b.1) ∧
    recurFrom initialCapital res.curve ∧
    (∀ d0, (sortedCommonDates inp).head? = some d0 → ∀ e ∈ res.curve, d0 < e.1) := by
  simp only [runBacktest] at hres
  split at hres
  · exact absurd hres (by simp)
  split at hres
  · exact absurd hres (by simp)
  injection hres with hres
  subst hres
  have hsub := btLoop_curve_dates_sublist inp
    ((sortedCommonDates inp).zip (sortedCommonDates inp).tail) initialCapital
  have hms : (((sortedCommonDates inp).zip (sortedCommonDates inp).tail).map Prod.snd)
      = (sortedCommonDates inp).tail :=
    List.map_snd_zip _ _ (by rw [List.length_tail]; omega)
  rw [hms] at hsub
  have hpw : (sortedCommonDates inp).Pairwise (· < ·) :=
    sortedCommonDates_pairwise inp hnd
  have hpwt : (sortedCommonDates inp).tail.Pairwise (· < ·) :=
    hpw.sublist (List.tail_sublist _)
  refine ⟨?_, btLoop_recur inp _ initialCapital, ?_⟩
  · exact List.pairwise_map.mp (hpwt.sublist hsub)
  · intro d0 hd0 e he
    have hmem : e.1 ∈ (sortedCommonDates inp).tail :=
      hsub.subset (List.mem_map_of_mem Prod.fst he)
    rcases hall : sortedCommonDates inp with - | ⟨a, t⟩
    · rw [hall] at hd0
      simp at hd0
    · rw [hall] at hd0 hmem hpw
      simp only [List.head?_cons, Option.some.injEq] at hd0
      subst hd0
      exact List.rel_of_pairwise_cons hpw hmem

/-- C8: fewer than 2 common dates across the three input tables makes the
backtest fail hard, producing no equity curve at all. -/
theorem runBacktest_no_overlap (inp : BTInput)
    (h : (sortedCommonDates inp).length < 2) : runBacktest inp = none := by
  unfold runBacktest
  simp [h]

/-- Closed instance of the no-overlap failure on empty input tables. -/
theorem runBacktest_no_overlap_witness :
    runBacktest (BTInput.mk [] [] []) = none :=
  runBacktest_no_overlap (BTInput.mk [] [] []) (by decide)

/-- C9 counterexample: the missing-regime-configuration week is recorded in
the equity curve as a zero-return entry, but no trade record is stored for it
(the loop `continue`s before writing `tradesByDate`), so a week appears in
the equity curve without a corresponding trade record. -/
theorem zero_week_has_no_trade_record :
    runBacktest cInp9 = some ⟨[(20150109, initialCapital, 0)], []⟩ := by decide

/-- Every stored trade record corresponds to an equity-curve entry with the
same date and the same weekly return. -/
theorem btLoop_trade_has_curve_entry (inp : BTInput) :
    ∀ (pairs : List (ℕ × ℕ)) (equity : ℚ) (tr : TradeRec),
      tr ∈ (btLoop inp pairs equity).2 →
      ∃ e ∈ (btLoop inp pairs equity).1, e.1 = tr.date ∧ e.2.2 = tr.weeklyRet := by
  intro pairs
  induction pairs with
  | nil =>
    intro equity tr h
    simp [btLoop] at h
  | cons pr rest ih =>
    obtain ⟨rankDate, tradeDate⟩ := pr
    intro equity tr h
    by_cases hc : tradeDate < cutoff
    · simp only [btLoop, if_pos hc] at h ⊢
      exact ih equity tr h
    · rcases hm : (lookupRegime inp tradeDate).bind
        (fun rg => (regimeSectorConfig rg).map (fun c => (rg, c))) with - | ⟨rg, config⟩
      · simp only [btLoop, if_neg hc, hm] at h ⊢
        obtain ⟨e, he, hprop⟩ := ih equity tr h
        exact ⟨e, List.mem_cons_of_mem _ he, hprop⟩
      · by_cases hz : (selectBook (stocksAt inp rankDate)
            (fun tk => retLookup (stocksAt inp tradeDate) tk) config.1 true).length
            + (selectBook (stocksAt inp rankDate)
              (fun tk => retLookup (stocksAt inp tradeDate) tk) config.2 false).length = 0
        · simp only [btLoop, if_neg hc, hm, if_pos hz] at h ⊢
          obtain ⟨e, he, hprop⟩ := ih equity tr h
          exact ⟨e, List.mem_cons_of_mem _ he, hprop⟩
        · simp only [btLoop, if_neg hc, hm, if_neg hz] at h ⊢
          rcases List.mem_cons.mp h with rfl | h
          · exact ⟨_, List.mem_cons_self _ _, rfl, rfl⟩
          · obtain ⟨e, he, hprop⟩ := ih _ tr h
            exact ⟨e, List.mem_cons_of_mem _ he, hprop⟩

/-- C9 amended: the loop stores at most one trade record per simulated week
(their dates are strictly increasing along strictly increasing trade dates),
and every trade record matches an equity-curve entry of the same date and
weekly return; but zero-return weeks (missing regime configuration or empty
candidate set) receive an equity-curve entry with no trade record, as the
counterexample shows. -/
theorem btLoop_one_trade_per_week (inp : BTInput) (pairs : List (ℕ × ℕ))
    (equity : ℚ) (hpw : (pairs.map Prod.snd).Pairwise (· < ·)) :
    (btLoop inp pairs equity).2.Pairwise (fun a b => a.date < b.date) ∧
    ∀ tr ∈ (btLoop inp pairs equity).2,
      ∃ e ∈ (btLoop inp pairs equity).1, e.1 = tr.date ∧ e.2.2 = tr.weeklyRet := by
  constructor
  · exact List.pairwise_map.mp
      (hpw.sublist (btLoop_trade_dates_sublist inp pairs equity))
  · exact btLoop_trade_has_curve_entry inp pairs equity

/-- Closed instance of the per-week weight theorem on `cInp6`'s single traded
week. -/
theorem btLoop_trade_weights_witness :
    (∀ p ∈ tr6.longs, p.weight = (1/2) / tr6.longs.length ∧
      p.pnl = p.weight * p.stockRet) ∧
    (∀ p ∈ tr6.shorts, p.weight = -((1/2) / tr6.shorts.length) ∧
      p.pnl = p.weight * p.stockRet) ∧
    (tr6.longs ≠ [] → (tr6.longs.map Position.weight).sum = 1/2) ∧
    (tr6.shorts ≠ [] → (tr6.shorts.map Position.weight).sum = -(1/2)) ∧
    tr6.weeklyRet = (tr6.longs.map (fun p => p.weight * p.stockRet)).sum
      + (tr6.shorts.map (fun p => p.weight * p.stockRet)).sum :=
  btLoop_trade_weights cInp6 [(20150102, 20150109)] initialCapital tr6 (by
    norm_num [btLoop, mkWeek, selectBook, stocksAt, retLookup, lookupRegime,
      regimeSectorConfig, cutoff, initialCapital, cInp6, tr6, List.insertionSort,
      List.orderedInsert, List.find?, List.filter, List.filterMap, List.flatMap])

/-- Closed instance of the equity-curve invariants on `cInp6`. -/
theorem runBacktest_curve_invariants_witness :
    cRes6.curve.Pairwise (fun a b => a.1 < b.1) ∧
    recurFrom initialCapital cRes6.curve ∧
    (∀ d0, (sortedCommonDates cInp6).head? = some d0 →
      ∀ e ∈ cRes6.curve, d0 < e.1) :=
  runBacktest_curve_invariants cInp6 cRes6 (by decide) (by
    norm_num [runBacktest, sortedCommonDates, btLoop, mkWeek, selectBook, stocksAt,
      retLookup, lookupRegime, regimeSectorConfig, cutoff, initialCapital, cInp6,
      cRes6, tr6, List.insertionSort, List.orderedInsert, List.find?, List.filter,
      List.filterMap, List.flatMap])

/-- Closed instance of the one-trade-record-per-week theorem on `cInp6`. -/
theorem btLoop_one_trade_per_week_witness :
    (btLoop cInp6 [(20150102, 20150109)] initialCapital).2.Pairwise
      (fun a b => a.date < b.date) ∧
    ∀ tr ∈ (btLoop cInp6 [(20150102, 20150109)] initialCapital).2,
      ∃ e ∈ (btLoop cInp6 [(20150102, 20150109)] initialCapital).1,
        e.1 = tr.date ∧ e.2.2 = tr.weeklyRet :=
  btLoop_one_trade_per_week cInp6 [(20150102, 20150109)] initialCapital (by decide)
